import Mathlib

/-!
Verification of the Audio-Slicer batch-processing core: a shallow embedding of
`src/audio_slicer/utils/processing.py` (decode fallback chain, ffmpeg subprocess
fallback, voiced-range computation, segment and metadata export) and of the
batch orchestration in `src/audio_slicer/gui/mainwindow.py` (start-time option
validation, per-file worker logic, the three concurrency strategies).
-/

namespace AudioSlicer

/-- Python `a or b` on strings: the empty string is falsy. -/
def pyOrS (a b : String) : String := if a = "" then b else a

/-- Python `a or b` where `a` is an optional string (`None` and `""` are falsy). -/
def pyOrOptS (a : Option String) (b : String) : String :=
  match a with
  | none => b
  | some s => if s = "" then b else s

/-- An error message, tagged by provenance: a raw Python string (for example
`str(exc)` or a decoder error), a localized string-table lookup
`i18n.text(key, lang)`, or such a lookup followed by `.format(error=arg)`.
The `i18n` string table lives outside the modelled core (the spec lists
localized string tables as an external collaborator), so messages are kept
symbolic rather than expanded to concrete text. -/
inductive Msg where
  | raw (s : String)
  | i18n (key lang : String)
  | i18nFmt (key lang arg : String)
deriving DecidableEq, Repr

/-- Python `error or default` on an optional message; a raw empty string is
falsy, localized texts are non-empty and hence truthy. -/
def msgOr (a : Option Msg) (b : Msg) : Msg :=
  match a with
  | none => b
  | some (Msg.raw s) => if s = "" then b else Msg.raw s
  | some m => m

/-- Environment for one `process_audio_file` decode: the outcome of the primary
`soundfile.read`, the resolved ffmpeg path (`resolve_ffmpeg_path()`), and the
outcomes of the two fallback readers (`_read_with_ffmpeg`,
`_read_with_librosa`), each either decoded audio paired with a sample rate or
an error string. `α` stands for the decoded audio data. -/
structure DecodeEnv (α : Type) where
  primary : Except String (α × Nat)
  ffmpegPath : Option String
  ffmpegRead : Except String (α × Nat)
  librosaRead : Except String (α × Nat)
  lang : String

/-- Outcome of the decode phase of `process_audio_file`: decoded audio with its
sample rate, or a final failure message. -/
inductive DecodeResult (α : Type) where
  | ok (audio : α) (sr : Nat)
  | fail (msg : Msg)
deriving DecidableEq, Repr

/-- processing.py lines 136–141: the librosa stage, entered with no decoded
audio and the error accumulated so far; for modes `librosa` and
`ffmpeg_then_librosa` try `_read_with_librosa`, returning
`librosa_error or error or "Decode failed."` on failure; any other mode falls
through to `return False, error or "Decode failed.", None`. -/
def librosaStage {α : Type} (mode : String) (err : Option String) (env : DecodeEnv α) :
    DecodeResult α :=
  if mode = "librosa" ∨ mode = "ffmpeg_then_librosa" then
    match env.librosaRead with
    | Except.ok (a, sr) => DecodeResult.ok a sr
    | Except.error le => DecodeResult.fail (Msg.raw (pyOrS le (pyOrOptS err "Decode failed.")))
  else
    DecodeResult.fail (Msg.raw (pyOrOptS err "Decode failed."))

/-- processing.py lines 124–141: the fallback section, entered after the
primary decode failed with error `e`. For modes `ffmpeg` and
`ffmpeg_then_librosa`, resolve the ffmpeg path: a missing path is a final
`ffmpeg_not_found` failure only in mode `ffmpeg`; a failing ffmpeg read is a
final `ffmpeg_failed` failure in mode `ffmpeg` and otherwise replaces the
accumulated error before the librosa stage. -/
def afterPrimaryFail {α : Type} (mode : String) (e : String) (env : DecodeEnv α) :
    DecodeResult α :=
  if mode = "ffmpeg" ∨ mode = "ffmpeg_then_librosa" then
    match env.ffmpegPath with
    | none =>
      if mode = "ffmpeg" then DecodeResult.fail (Msg.i18n "ffmpeg_not_found" env.lang)
      else librosaStage mode (some e) env
    | some _ =>
      match env.ffmpegRead with
      | Except.ok (a, sr) => DecodeResult.ok a sr
      | Except.error fe =>
        if mode = "ffmpeg" then DecodeResult.fail (Msg.i18nFmt "ffmpeg_failed" env.lang fe)
        else librosaStage mode (some fe) env
  else librosaStage mode (some e) env

/-- processing.py lines 115–141: the full decode phase of `process_audio_file`.
A successful primary `soundfile.read` short-circuits; otherwise any mode other
than `ffmpeg`, `librosa`, `ffmpeg_then_librosa` fails immediately with the
primary error, and the listed modes run the fallback section. -/
def decodeChain {α : Type} (mode : String) (env : DecodeEnv α) : DecodeResult α :=
  match env.primary with
  | Except.ok (a, sr) => DecodeResult.ok a sr
  | Except.error e =>
    if mode = "ffmpeg" ∨ mode = "librosa" ∨ mode = "ffmpeg_then_librosa" then
      afterPrimaryFail mode e env
    else
      DecodeResult.fail (Msg.raw e)

/-- C1: under `fallback_mode = "ffmpeg_then_librosa"`, when the primary decode
fails, `process_audio_file` tries ffmpeg first and librosa second: a successful
ffmpeg read wins regardless of the librosa outcome, librosa is consulted only
when ffmpeg is unavailable or fails, and when every attempt fails the returned
failure carries the librosa error (the last error encountered). -/
theorem c1_ffmpeg_then_librosa_order {α : Type} (env : DecodeEnv α) (e : String)
    (hp : env.primary = Except.error e) :
    (∀ (p : String) (a : α) (sr : Nat), env.ffmpegPath = some p →
        env.ffmpegRead = Except.ok (a, sr) →
        decodeChain "ffmpeg_then_librosa" env = DecodeResult.ok a sr) ∧
    (∀ (p fe : String) (a : α) (sr : Nat), env.ffmpegPath = some p →
        env.ffmpegRead = Except.error fe → env.librosaRead = Except.ok (a, sr) →
        decodeChain "ffmpeg_then_librosa" env = DecodeResult.ok a sr) ∧
    (∀ (a : α) (sr : Nat), env.ffmpegPath = none →
        env.librosaRead = Except.ok (a, sr) →
        decodeChain "ffmpeg_then_librosa" env = DecodeResult.ok a sr) ∧
    (∀ (p fe le : String), le ≠ "" → env.ffmpegPath = some p →
        env.ffmpegRead = Except.error fe → env.librosaRead = Except.error le →
        decodeChain "ffmpeg_then_librosa" env = DecodeResult.fail (Msg.raw le)) ∧
    (∀ (le : String), le ≠ "" → env.ffmpegPath = none →
        env.librosaRead = Except.error le →
        decodeChain "ffmpeg_then_librosa" env = DecodeResult.fail (Msg.raw le)) := by
  refine ⟨?_, ?_, ?_, ?_, ?_⟩ <;> intros <;>
    simp_all [decodeChain, afterPrimaryFail, librosaStage, pyOrS]

/-- Witness for C1 at a concrete environment: primary fails, ffmpeg resolves
and succeeds, so the chain returns the ffmpeg audio. -/
theorem c1_ffmpeg_then_librosa_order_witness :
    decodeChain "ffmpeg_then_librosa"
      (DecodeEnv.mk (α := Nat) (Except.error "boom") (some "/usr/bin/ffmpeg")
        (Except.ok (7, 44100)) (Except.error "lib err") "en") =
      DecodeResult.ok 7 44100 :=
  (c1_ffmpeg_then_librosa_order
      (DecodeEnv.mk (α := Nat) (Except.error "boom") (some "/usr/bin/ffmpeg")
        (Except.ok (7, 44100)) (Except.error "lib err") "en") "boom" rfl).1
    "/usr/bin/ffmpeg" 7 44100 rfl rfl

/-- C9: under `ffmpeg_then_librosa`, a missing ffmpeg executable is skipped
silently — no `ffmpeg_not_found` error is produced and librosa is attempted
directly (succeeding, or failing with its own error, never with the
ffmpeg-not-found message); only under mode `ffmpeg` does a missing executable
fail the file with the `ffmpeg_not_found` error. -/
theorem c9_missing_ffmpeg_skipped {α : Type} (env : DecodeEnv α) (e : String)
    (hp : env.primary = Except.error e) (hpath : env.ffmpegPath = none) :
    (∀ (a : α) (sr : Nat), env.librosaRead = Except.ok (a, sr) →
        decodeChain "ffmpeg_then_librosa" env = DecodeResult.ok a sr) ∧
    (∀ (le : String), env.librosaRead = Except.error le →
        decodeChain "ffmpeg_then_librosa" env =
          DecodeResult.fail (Msg.raw (pyOrS le (pyOrOptS (some e) "Decode failed."))) ∧
        ∀ (lang : String),
          decodeChain "ffmpeg_then_librosa" env ≠
            DecodeResult.fail (Msg.i18n "ffmpeg_not_found" lang)) ∧
    decodeChain "ffmpeg" env = DecodeResult.fail (Msg.i18n "ffmpeg_not_found" env.lang) := by
  refine ⟨?_, ?_, ?_⟩ <;> intros <;>
    simp_all [decodeChain, afterPrimaryFail, librosaStage]

/-- Witness for C9 at a concrete environment: no ffmpeg path, librosa fails, so
the `ffmpeg_then_librosa` chain reports the librosa error while the `ffmpeg`
chain reports `ffmpeg_not_found`. -/
theorem c9_missing_ffmpeg_skipped_witness :
    decodeChain "ffmpeg_then_librosa"
      (DecodeEnv.mk (α := Nat) (Except.error "boom") none
        (Except.error "fferr") (Except.error "lib err") "en") =
      DecodeResult.fail (Msg.raw "lib err") ∧
    decodeChain "ffmpeg"
      (DecodeEnv.mk (α := Nat) (Except.error "boom") none
        (Except.error "fferr") (Except.error "lib err") "en") =
      DecodeResult.fail (Msg.i18n "ffmpeg_not_found" "en") := by
  have h := c9_missing_ffmpeg_skipped
    (DecodeEnv.mk (α := Nat) (Except.error "boom") none
      (Except.error "fferr") (Except.error "lib err") "en") "boom" rfl rfl
  refine ⟨?_, h.2.2⟩
  have h2 := (h.2.1 "lib err" rfl).1
  simpa [pyOrS, pyOrOptS] using h2

/-- Python `str.strip()`: drop leading and trailing whitespace. -/
def pyStrip (s : String) : String :=
  String.mk (((s.data.dropWhile Char.isWhitespace).reverse.dropWhile Char.isWhitespace).reverse)

/-- Captured outcome of the ffmpeg subprocess call in `_read_with_ffmpeg`
(`subprocess.run(..., capture_output=True, text=True)`). -/
structure ProcRun where
  returncode : Int
  stdout : String
  stderr : String
deriving DecidableEq, Repr

/-- Environment for one `_read_with_ffmpeg` call: the subprocess outcome, the
result of `soundfile.read` on the temporary WAV (an exception message on
failure), and whether the final `os.remove` of the temp file raises `OSError`. -/
structure FfmpegCallEnv (α : Type) where
  run : ProcRun
  wavRead : Except String (α × Nat)
  removeRaises : Bool

/-- Result of `_read_with_ffmpeg`: a decoded buffer with sample rate, an error
detail string (nonzero exit code), or a propagated exception from reading the
temporary WAV. -/
inductive FfmpegReadResult (α : Type) where
  | ok (audio : α) (sr : Nat)
  | err (detail : String)
  | raised (exc : String)
deriving DecidableEq, Repr

/-- Observable outcome of one `_read_with_ffmpeg` call: the function result, the
argv handed to `subprocess.run`, whether the `finally` block attempted to remove
the temp file, and whether the temp file still exists afterwards. -/
structure FfmpegCallOut (α : Type) where
  result : FfmpegReadResult α
  argv : List String
  removeAttempted : Bool
  tempExists : Bool
deriving Repr

/-- processing.py lines 47–57: the argument vector passed to `subprocess.run`. -/
def ffmpegArgv (ffmpegPath filename tempPath : String) : List String :=
  [ffmpegPath, "-y", "-i", filename, "-vn", "-acodec", "pcm_s16le", tempPath]

/-- processing.py lines 39–69, `_read_with_ffmpeg`: run ffmpeg over the input
into a fresh temporary WAV; on nonzero exit return
`result.stderr.strip() or result.stdout.strip()` as the error detail, on zero
exit read the temp WAV with `soundfile.read` (an exception there propagates);
the `finally` block removes the temp file on every path, swallowing `OSError`. -/
def readWithFfmpeg {α : Type} (filename ffmpegPath tempPath : String)
    (env : FfmpegCallEnv α) : FfmpegCallOut α :=
  let result :=
    if env.run.returncode ≠ 0 then
      FfmpegReadResult.err (pyOrS (pyStrip env.run.stderr) (pyStrip env.run.stdout))
    else
      match env.wavRead with
      | Except.ok (a, sr) => FfmpegReadResult.ok a sr
      | Except.error exc => FfmpegReadResult.raised exc
  { result := result
    argv := ffmpegArgv ffmpegPath filename tempPath
    removeAttempted := true
    tempExists := env.removeRaises }

/-- C7: `_read_with_ffmpeg` invokes ffmpeg with argv
`[-y, -i, input, -vn, -acodec, pcm_s16le, temp]`, succeeds exactly when the exit
code is 0 and the temp WAV is readable (yielding its samples), reports the
stripped stderr on nonzero exit with stdout as fallback when stderr strips to
empty, and attempts removal of the temp file on every exit path (the file is
gone whenever `os.remove` does not itself fail). -/
theorem c7_read_with_ffmpeg_contract {α : Type} (filename ffmpegPath tempPath : String)
    (env : FfmpegCallEnv α) :
    (readWithFfmpeg filename ffmpegPath tempPath env).argv =
      [ffmpegPath, "-y", "-i", filename, "-vn", "-acodec", "pcm_s16le", tempPath] ∧
    ((∃ (a : α) (sr : Nat),
        (readWithFfmpeg filename ffmpegPath tempPath env).result = FfmpegReadResult.ok a sr) ↔
      (env.run.returncode = 0 ∧ ∃ (a : α) (sr : Nat), env.wavRead = Except.ok (a, sr))) ∧
    (∀ (a : α) (sr : Nat), env.run.returncode = 0 → env.wavRead = Except.ok (a, sr) →
        (readWithFfmpeg filename ffmpegPath tempPath env).result = FfmpegReadResult.ok a sr) ∧
    (env.run.returncode ≠ 0 → pyStrip env.run.stderr ≠ "" →
        (readWithFfmpeg filename ffmpegPath tempPath env).result =
          FfmpegReadResult.err (pyStrip env.run.stderr)) ∧
    (env.run.returncode ≠ 0 → pyStrip env.run.stderr = "" →
        (readWithFfmpeg filename ffmpegPath tempPath env).result =
          FfmpegReadResult.err (pyStrip env.run.stdout)) ∧
    (readWithFfmpeg filename ffmpegPath tempPath env).removeAttempted = true ∧
    (env.removeRaises = false →
        (readWithFfmpeg filename ffmpegPath tempPath env).tempExists = false) := by
  refine ⟨rfl, ?_, ?_, ?_, ?_, rfl, ?_⟩
  · constructor
    · rintro ⟨a, sr, hres⟩
      by_cases hrc : env.run.returncode = 0
      · simp only [readWithFfmpeg, hrc] at hres
        refine ⟨hrc, ?_⟩
        cases hw : env.wavRead with
        | ok p =>
          obtain ⟨a', sr'⟩ := p
          exact ⟨a', sr', rfl⟩
        | error exc => simp [hw] at hres
      · simp [readWithFfmpeg, hrc] at hres
    · rintro ⟨hrc, a, sr, hw⟩
      exact ⟨a, sr, by simp [readWithFfmpeg, hrc, hw]⟩
  · intro a sr hrc hw
    simp [readWithFfmpeg, hrc, hw]
  · intro hrc hs
    simp [readWithFfmpeg, hrc, pyOrS, hs]
  · intro hrc hs
    simp [readWithFfmpeg, hrc, pyOrS, hs]
  · intro h
    simp [readWithFfmpeg, h]

/-- Witness for C7 at a concrete environment: nonzero exit with empty stderr
falls back to the stripped stdout, and the temp file is removed. -/
theorem c7_read_with_ffmpeg_contract_witness :
    (readWithFfmpeg (α := Nat) "in.m4a" "/usr/bin/ffmpeg" "/tmp/x.wav"
        (FfmpegCallEnv.mk (ProcRun.mk 1 " out msg " "  ") (Except.error "unused") false)).result =
      FfmpegReadResult.err "out msg" ∧
    (readWithFfmpeg (α := Nat) "in.m4a" "/usr/bin/ffmpeg" "/tmp/x.wav"
        (FfmpegCallEnv.mk (ProcRun.mk 1 " out msg " "  ") (Except.error "unused") false)).tempExists =
      false := by
  have h := c7_read_with_ffmpeg_contract (α := Nat) "in.m4a" "/usr/bin/ffmpeg" "/tmp/x.wav"
    (FfmpegCallEnv.mk (ProcRun.mk 1 " out msg " "  ") (Except.error "unused") false)
  refine ⟨?_, h.2.2.2.2.2.2 rfl⟩
  have h4 := h.2.2.2.2.1 (by decide) (by decide)
  simpa using h4

/-- processing.py lines 230–240, `_get_ranges`: the complementary voiced ranges
of a silence-tag list, in milliseconds. An empty tag list yields the single
full range; otherwise a leading range when the first tag starts after 0, one
range per consecutive tag pair, and a trailing range when the last tag ends
before `total_frames`, all scaled by `hop_ms`. -/
def get_ranges (sil_tags : List (Nat × Nat)) (total_frames hop_ms : Nat) :
    List (Nat × Nat) :=
  match sil_tags with
  | [] => [(0, total_frames * hop_ms)]
  | t0 :: rest =>
    (if 0 < t0.1 then [(0, t0.1 * hop_ms)] else []) ++
    List.zipWith (fun a b : Nat × Nat => (a.2 * hop_ms, b.1 * hop_ms)) (t0 :: rest) rest ++
    (if (rest.getLastD t0).2 < total_frames then
        [((rest.getLastD t0).2 * hop_ms, total_frames * hop_ms)]
      else [])

/-- Silence tags sorted, mutually non-overlapping and contained in
`[lo, total]`: each tag starts no earlier than the running cursor, ends no
earlier than it starts, and the whole list stays below `total`. -/
def tagsOrdered : Nat → List (Nat × Nat) → Nat → Prop
  | lo, [], total => lo ≤ total
  | lo, t :: rest, total => lo ≤ t.1 ∧ t.1 ≤ t.2 ∧ tagsOrdered t.2 rest total

/-- A hop index lies inside one of the half-open hop intervals of `l`. -/
def coversHop (l : List (Nat × Nat)) (h : Nat) : Prop :=
  ∃ r ∈ l, r.1 ≤ h ∧ h < r.2

theorem coversHop_nil (h : Nat) : ¬ coversHop [] h := by
  simp [coversHop]

theorem coversHop_cons (t : Nat × Nat) (l : List (Nat × Nat)) (h : Nat) :
    coversHop (t :: l) h ↔ (t.1 ≤ h ∧ h < t.2) ∨ coversHop l h := by
  simp [coversHop, List.mem_cons, or_and_right, exists_or, exists_eq_left]

theorem coversHop_append (l1 l2 : List (Nat × Nat)) (h : Nat) :
    coversHop (l1 ++ l2) h ↔ coversHop l1 h ∨ coversHop l2 h := by
  simp [coversHop, List.mem_append, or_and_right, exists_or]

/-- A list whose interval starts all sit at or above `lb` covers no hop
below `lb`. -/
theorem not_coversHop_of_lb (l : List (Nat × Nat)) (h lb : Nat)
    (hlb : ∀ r ∈ l, lb ≤ r.1) (hh : h < lb) : ¬ coversHop l h := by
  rintro ⟨u, hu, hu1, _⟩
  exact absurd hu1 (not_le.mpr (lt_of_lt_of_le hh (hlb u hu)))

/-- Every tag of an ordered tag list starts at or above the cursor. -/
theorem tagsOrdered_le_start : ∀ (tags : List (Nat × Nat)) (lo total : Nat),
    tagsOrdered lo tags total → ∀ t ∈ tags, lo ≤ t.1 := by
  intro tags
  induction tags with
  | nil => intro lo total _ t ht; simp at ht
  | cons u rs ih =>
    intro lo total ho t ht
    simp only [tagsOrdered] at ho
    obtain ⟨h1, h2, h3⟩ := ho
    rcases List.mem_cons.mp ht with rfl | ht
    · exact h1
    · exact le_trans (le_trans h1 h2) (ih u.2 total h3 t ht)

/-- Proof-side recursive form of the gap-plus-trailing part of `_get_ranges`
in hop units: one gap after `prev` per remaining consecutive tag pair, then
the trailing range. -/
def gapsTrail : Nat × Nat → List (Nat × Nat) → Nat → List (Nat × Nat)
  | prev, [], total => if prev.2 < total then [(prev.2, total)] else []
  | prev, t :: rest, total => (prev.2, t.1) :: gapsTrail t rest total

/-- The zip-with-successor loop of `_get_ranges` plus its trailing range equal
the recursive `gapsTrail`. -/
theorem zip_trail_eq_gapsTrail :
    ∀ (rest : List (Nat × Nat)) (prev : Nat × Nat) (total : Nat),
    List.zipWith (fun a b : Nat × Nat => (a.2, b.1)) (prev :: rest) rest ++
      (if (rest.getLastD prev).2 < total then [((rest.getLastD prev).2, total)] else []) =
    gapsTrail prev rest total := by
  intro rest
  induction rest with
  | nil => intro prev total; simp [gapsTrail]
  | cons t rs ih =>
    intro prev total
    simp only [List.zipWith_cons_cons, List.getLastD_cons, List.cons_append, gapsTrail]
    rw [ih t total]

/-- `_get_ranges` at unit hop size, nonempty tag list: leading range plus
`gapsTrail`. -/
theorem get_ranges_one_cons (t0 : Nat × Nat) (rest : List (Nat × Nat)) (total : Nat) :
    get_ranges (t0 :: rest) total 1 =
      (if 0 < t0.1 then [(0, t0.1)] else []) ++ gapsTrail t0 rest total := by
  simp only [get_ranges, mul_one, List.append_assoc]
  rw [zip_trail_eq_gapsTrail]

/-- Every range emitted by `gapsTrail` starts at or above the previous tag's
end and is well-formed. -/
theorem gapsTrail_lb : ∀ (rest : List (Nat × Nat)) (prev : Nat × Nat) (total : Nat),
    tagsOrdered prev.2 rest total →
    ∀ r ∈ gapsTrail prev rest total, prev.2 ≤ r.1 ∧ r.1 ≤ r.2 := by
  intro rest
  induction rest with
  | nil =>
    intro prev total ho r hr
    simp only [tagsOrdered] at ho
    simp only [gapsTrail] at hr
    split at hr
    · simp only [List.mem_singleton] at hr
      subst hr
      exact ⟨le_refl _, ho⟩
    · simp at hr
  | cons t rs ih =>
    intro prev total ho r hr
    simp only [tagsOrdered] at ho
    obtain ⟨h1, h2, h3⟩ := ho
    simp only [gapsTrail] at hr
    rcases List.mem_cons.mp hr with rfl | hr
    · exact ⟨le_refl _, h1⟩
    · have hb := ih t total h3 r hr
      exact ⟨le_trans (le_trans h1 h2) hb.1, hb.2⟩

/-- The ranges emitted by `gapsTrail` are in ascending order. -/
theorem gapsTrail_chain : ∀ (rest : List (Nat × Nat)) (prev : Nat × Nat) (total : Nat),
    tagsOrdered prev.2 rest total →
    List.Chain' (fun a b : Nat × Nat => a.2 ≤ b.1) (gapsTrail prev rest total) := by
  intro rest
  induction rest with
  | nil =>
    intro prev total _
    simp only [gapsTrail]
    split <;> simp
  | cons t rs ih =>
    intro prev total ho
    simp only [tagsOrdered] at ho
    obtain ⟨h1, h2, h3⟩ := ho
    simp only [gapsTrail]
    rw [List.chain'_cons']
    refine ⟨?_, ih t total h3⟩
    intro b hb
    have hmem := List.mem_of_mem_head? hb
    have hlbb := gapsTrail_lb rs t total h3 b hmem
    exact le_trans h2 hlbb.1

/-- Complement characterization for `gapsTrail`: a hop at or past the previous
tag's end and below `total` is covered by a `gapsTrail` range exactly when it
lies in none of the remaining tags. -/
theorem gapsTrail_cover : ∀ (rest : List (Nat × Nat)) (prev : Nat × Nat) (total hIdx : Nat),
    tagsOrdered prev.2 rest total → prev.2 ≤ hIdx → hIdx < total →
    (coversHop (gapsTrail prev rest total) hIdx ↔ ¬ coversHop rest hIdx) := by
  intro rest
  induction rest with
  | nil =>
    intro prev total hIdx _ hlo hht
    have hcond : prev.2 < total := lt_of_le_of_lt hlo hht
    simp only [gapsTrail, if_pos hcond]
    refine iff_of_true ⟨(prev.2, total), List.mem_singleton_self _, hlo, hht⟩ (coversHop_nil hIdx)
  | cons t rs ih =>
    intro prev total hIdx ho hlo hht
    simp only [tagsOrdered] at ho
    obtain ⟨h1, h2, h3⟩ := ho
    simp only [gapsTrail]
    have hrs_lb : ∀ r ∈ rs, t.2 ≤ r.1 := tagsOrdered_le_start rs t.2 total h3
    have hgt_lb : ∀ r ∈ gapsTrail t rs total, t.2 ≤ r.1 :=
      fun r hr => (gapsTrail_lb rs t total h3 r hr).1
    by_cases hlt : hIdx < t.1
    · refine iff_of_true ⟨(prev.2, t.1), List.mem_cons_self _ _, hlo, hlt⟩ ?_
      rw [coversHop_cons]
      push_neg
      refine ⟨fun hc => absurd hc (not_le.mpr hlt), ?_⟩
      exact not_coversHop_of_lb rs hIdx t.2 hrs_lb (lt_of_lt_of_le hlt h2)
    · push_neg at hlt
      by_cases hlt2 : hIdx < t.2
      · have hR : coversHop (t :: rs) hIdx := ⟨t, List.mem_cons_self _ _, hlt, hlt2⟩
        have hL : ¬ coversHop ((prev.2, t.1) :: gapsTrail t rs total) hIdx := by
          rw [coversHop_cons]
          push_neg
          refine ⟨fun _ => hlt, ?_⟩
          exact not_coversHop_of_lb _ hIdx t.2 hgt_lb hlt2
        exact iff_of_false hL (not_not_intro hR)
      · push_neg at hlt2
        have hiff := ih t total hIdx h3 hlt2 hht
        rw [coversHop_cons, coversHop_cons, hiff]
        have hgap : ¬ (hIdx < t.1) := not_lt.mpr (le_trans h2 hlt2)
        have htag : ¬ (hIdx < t.2) := not_lt.mpr hlt2
        constructor
        · rintro (⟨_, hc⟩ | hc)
          · exact absurd hc hgap
          · intro hor
            rcases hor with ⟨_, hc2⟩ | hc2
            · exact absurd hc2 htag
            · exact hc hc2
        · intro hnc
          right
          intro hc
          exact hnc (Or.inr hc)

/-- `_get_ranges` at an arbitrary hop size is the unit-hop result with both
endpoints scaled by `hop_ms`. -/
theorem get_ranges_hop_scale (tags : List (Nat × Nat)) (total hop : Nat) :
    get_ranges tags total hop =
      (get_ranges tags total 1).map (fun p : Nat × Nat => (p.1 * hop, p.2 * hop)) := by
  cases tags with
  | nil => simp [get_ranges]
  | cons t0 rest =>
    simp only [get_ranges, mul_one, List.map_append, List.map_zipWith]
    congr 1
    · split <;> simp [Nat.zero_mul]
    · split <;> simp

/-- Complement characterization of `_get_ranges` at unit hop: a hop index below
`total` is covered by a voiced range exactly when it lies in no silence tag. -/
theorem get_ranges_cover (tags : List (Nat × Nat)) (total hIdx : Nat)
    (ho : tagsOrdered 0 tags total) (hht : hIdx < total) :
    coversHop (get_ranges tags total 1) hIdx ↔ ¬ coversHop tags hIdx := by
  cases tags with
  | nil =>
    simp only [get_ranges, mul_one]
    refine iff_of_true ⟨(0, total), List.mem_singleton_self _, Nat.zero_le _, hht⟩
      (coversHop_nil hIdx)
  | cons t0 rest =>
    simp only [tagsOrdered] at ho
    obtain ⟨h1, h2, h3⟩ := ho
    rw [get_ranges_one_cons, coversHop_append]
    have hrest_lb : ∀ r ∈ rest, t0.2 ≤ r.1 := tagsOrdered_le_start rest t0.2 total h3
    have hgt_lb : ∀ r ∈ gapsTrail t0 rest total, t0.2 ≤ r.1 :=
      fun r hr => (gapsTrail_lb rest t0 total h3 r hr).1
    by_cases hlt : hIdx < t0.1
    · have hpos : 0 < t0.1 := Nat.lt_of_le_of_lt (Nat.zero_le _) hlt
      refine iff_of_true (Or.inl ?_) ?_
      · rw [if_pos hpos]
        exact ⟨(0, t0.1), List.mem_singleton_self _, Nat.zero_le _, hlt⟩
      · rw [coversHop_cons]
        push_neg
        refine ⟨fun hc => absurd hc (not_le.mpr hlt), ?_⟩
        exact not_coversHop_of_lb rest hIdx t0.2 hrest_lb (lt_of_lt_of_le hlt h2)
    · push_neg at hlt
      have hlead : ¬ coversHop (if 0 < t0.1 then [(0, t0.1)] else []) hIdx := by
        split
        · rintro ⟨u, hu, hu1, hu2⟩
          simp only [List.mem_singleton] at hu
          subst hu
          exact absurd hu2 (not_lt.mpr hlt)
        · exact coversHop_nil hIdx
      by_cases hlt2 : hIdx < t0.2
      · have hR : coversHop (t0 :: rest) hIdx := ⟨t0, List.mem_cons_self _ _, hlt, hlt2⟩
        have hL : ¬ (coversHop (if 0 < t0.1 then [(0, t0.1)] else []) hIdx ∨
            coversHop (gapsTrail t0 rest total) hIdx) := by
          rintro (hc | hc)
          · exact hlead hc
          · exact not_coversHop_of_lb _ hIdx t0.2 hgt_lb hlt2 hc
        exact iff_of_false hL (not_not_intro hR)
      · push_neg at hlt2
        have hiff := gapsTrail_cover rest t0 total hIdx h3 hlt2 hht
        rw [coversHop_cons, hiff]
        have htag : ¬ (hIdx < t0.2) := not_lt.mpr hlt2
        constructor
        · rintro (hc | hc)
          · exact absurd hc hlead
          · intro hor
            rcases hor with ⟨_, hc2⟩ | hc2
            · exact absurd hc2 htag
            · exact hc hc2
        · intro hnc
          right
          intro hc
          exact hnc (Or.inr hc)

/-- The voiced ranges emitted by `_get_ranges` at unit hop are in ascending
order. -/
theorem get_ranges_chain (tags : List (Nat × Nat)) (total : Nat)
    (ho : tagsOrdered 0 tags total) :
    List.Chain' (fun a b : Nat × Nat => a.2 ≤ b.1) (get_ranges tags total 1) := by
  cases tags with
  | nil => simp [get_ranges]
  | cons t0 rest =>
    simp only [tagsOrdered] at ho
    obtain ⟨h1, h2, h3⟩ := ho
    rw [get_ranges_one_cons, List.chain'_append]
    refine ⟨?_, gapsTrail_chain rest t0 total h3, ?_⟩
    · split <;> simp
    · intro x hx y hy
      have hyb := (gapsTrail_lb rest t0 total h3 y (List.mem_of_mem_head? hy)).1
      split at hx
      · simp only [List.getLast?_singleton, Option.mem_def, Option.some_inj] at hx
        subst hx
        exact le_trans h2 hyb
      · simp at hx

/-- Length of `_get_ranges` on a nonempty tag list: one leading range when the
first tag starts after 0, one range per consecutive tag pair, one trailing
range when the last tag ends before `total`. -/
theorem get_ranges_length_cons (t0 : Nat × Nat) (rest : List (Nat × Nat)) (total hop : Nat) :
    (get_ranges (t0 :: rest) total hop).length =
      (if 0 < t0.1 then 1 else 0) + rest.length +
        (if (rest.getLastD t0).2 < total then 1 else 0) := by
  simp only [get_ranges, List.length_append, List.length_zipWith, List.length_cons]
  split_ifs <;> simp


/-- C4: for sorted, non-overlapping silence tags inside `[0, total_frames]`,
`_get_ranges` returns exactly the complementary voiced ranges in ascending
order — a hop is inside a returned range iff it is inside no tag, the ranges
are ordered, the count is one leading range (when the first tag starts after
hop 0) plus one range per consecutive tag pair plus one trailing range (when
the last tag ends before `total_frames`), and endpoints are converted to
milliseconds by multiplying by `hop_ms`; an empty tag list yields the single
full range, so at least one range exists in that case. -/
theorem c4_get_ranges_complement (tags : List (Nat × Nat)) (total hop : Nat)
    (ho : tagsOrdered 0 tags total) :
    (get_ranges [] total hop = [(0, total * hop)]) ∧
    (get_ranges tags total hop =
      (get_ranges tags total 1).map (fun p : Nat × Nat => (p.1 * hop, p.2 * hop))) ∧
    (∀ hIdx, hIdx < total →
      (coversHop (get_ranges tags total 1) hIdx ↔ ¬ coversHop tags hIdx)) ∧
    List.Chain' (fun a b : Nat × Nat => a.2 ≤ b.1) (get_ranges tags total 1) ∧
    (∀ t0 rest, tags = t0 :: rest →
      (get_ranges tags total hop).length =
        (if 0 < t0.1 then 1 else 0) + rest.length +
          (if (rest.getLastD t0).2 < total then 1 else 0)) := by
  refine ⟨rfl, get_ranges_hop_scale tags total hop, ?_, get_ranges_chain tags total ho, ?_⟩
  · intro hIdx hht
    exact get_ranges_cover tags total hIdx ho hht
  · intro t0 rest heq
    subst heq
    exact get_ranges_length_cons t0 rest total hop

/-- Witness for C4 on the tag list `[(2,4),(6,8)]` with 10 total frames: hop 5
is voiced (covered by a returned range, in no tag) and the range count is 3. -/
theorem c4_get_ranges_complement_witness :
    (coversHop (get_ranges [(2, 4), (6, 8)] 10 1) 5 ↔ ¬ coversHop [(2, 4), (6, 8)] 5) ∧
    (get_ranges [(2, 4), (6, 8)] 10 20).length = 3 := by
  have h := c4_get_ranges_complement [(2, 4), (6, 8)] 10 20
    (by simp [tagsOrdered])
  refine ⟨h.2.2.1 5 (by norm_num), ?_⟩
  have hl := h.2.2.2.2 (2, 4) [(6, 8)] rfl
  simpa using hl

/-- `os.path.join` for the paths built by the export phase. -/
def joinPath (a b : String) : String := a ++ "/" ++ b

/-- Output path of segment `i`: `{out_dir}/{file_core}_{i}.{output_ext}`. -/
def segmentPath (outDir core ext : String) (i : Nat) : String :=
  joinPath outDir (core ++ "_" ++ toString i ++ "." ++ ext)

/-- One slice-metadata record (processing.py lines 201–210): index, optional
start/end/length in milliseconds (`None` when the chunk has no matching
range), output path and source file. -/
structure SliceRecord where
  index : Nat
  start_ms : Option Int
  end_ms : Option Int
  length_ms : Option Int
  output_path : String
  source_file : String
deriving DecidableEq, Repr

/-- processing.py lines 196–210: the record for chunk `i` — `ranges[i]` when
`i < len(ranges)`, otherwise `None` start/end, with
`length_ms = end_ms - start_ms` exactly when both endpoints are known. -/
def buildRecord (i : Nat) (ranges : List (Nat × Nat)) (path source : String) : SliceRecord :=
  let se := ranges.get? i
  { index := i
    start_ms := se.map (fun p => (p.1 : Int))
    end_ms := se.map (fun p => (p.2 : Int))
    length_ms := se.map (fun p => (p.2 : Int) - (p.1 : Int))
    output_path := path
    source_file := source }

/-- Effect environment for the export phase: which `soundfile.write` call
raises (by chunk index), and whether the CSV / JSON writes raise, each with an
exception message. -/
structure ExportEnv where
  segWriteExc : Nat → Option String
  csvExc : Option String
  jsonExc : Option String

/-- A JSON value as serialized by `json.dump` for a slice record field. -/
inductive Jv where
  | null
  | num (n : Int)
  | str (s : String)
deriving DecidableEq, Repr

/-- The `csv.DictWriter` field names (processing.py line 217). -/
def csvFieldnames : List String :=
  ["index", "start_ms", "end_ms", "length_ms", "output_path", "source_file"]

/-- CSV cell for an optional numeric field: `""` replaces `None`
(processing.py line 221). -/
def cellOfOpt : Option Int → String
  | none => ""
  | some v => toString v

/-- The CSV cells of one record, in fieldname order. -/
def recordCells (r : SliceRecord) : List String :=
  [toString r.index, cellOfOpt r.start_ms, cellOfOpt r.end_ms, cellOfOpt r.length_ms,
    r.output_path, r.source_file]

/-- The CSV rows written for a record list: header row then one row per
record. -/
def csvRows (recs : List SliceRecord) : List (List String) :=
  csvFieldnames :: recs.map recordCells

/-- JSON value of an optional numeric field: `null` replaces `None`. -/
def optIntJv : Option Int → Jv
  | none => Jv.null
  | some v => Jv.num v

/-- The JSON object written for one record (key/value pairs in insertion
order). -/
def recordJson (r : SliceRecord) : List (String × Jv) :=
  [("index", Jv.num r.index), ("start_ms", optIntJv r.start_ms),
    ("end_ms", optIntJv r.end_ms), ("length_ms", optIntJv r.length_ms),
    ("output_path", Jv.str r.output_path), ("source_file", Jv.str r.source_file)]

/-- A file produced by the export phase: one audio segment, the CSV metadata
file with its rows, or the JSON metadata file with its array of objects. -/
inductive Artifact where
  | segment (path : String) (idx : Nat)
  | csvFile (path : String) (rows : List (List String))
  | jsonFile (path : String) (content : List (List (String × Jv)))
deriving DecidableEq, Repr

/-- processing.py lines 190–210: the per-chunk write loop from index `i` with
`fuel` chunks remaining. Each chunk is written to its segment path; a raising
write aborts the loop (and the whole export) but keeps everything already
written; a successful write appends the chunk's slice record. Returns the
artifacts written, the records accumulated, and the first exception. -/
def writeSegGo (env : ExportEnv) (ranges : List (Nat × Nat))
    (outDir core ext source : String) :
    Nat → Nat → List Artifact × List SliceRecord × Option String
  | _, 0 => ([], [], none)
  | i, fuel + 1 =>
    let path := segmentPath outDir core ext i
    match env.segWriteExc i with
    | some exc => ([], [], some exc)
    | none =>
      let rest := writeSegGo env ranges outDir core ext source (i + 1) fuel
      (Artifact.segment path i :: rest.1, buildRecord i ranges path source :: rest.2.1,
        rest.2.2)

/-- processing.py lines 222–225: the JSON export step, entered with the
artifacts written so far. -/
def exportJsonStep (env : ExportEnv) (recs : List SliceRecord) (outDir core : String)
    (exportJson : Bool) (arts : List Artifact) : List Artifact × Option String :=
  if exportJson then
    match env.jsonExc with
    | some exc => (arts, some exc)
    | none =>
      (arts ++ [Artifact.jsonFile (joinPath outDir (core ++ "_slices.json"))
          (recs.map recordJson)], none)
  else (arts, none)

/-- processing.py lines 212–221: the CSV export step, then the JSON step. -/
def exportCsvStep (env : ExportEnv) (recs : List SliceRecord) (outDir core : String)
    (exportCsv exportJson : Bool) (arts : List Artifact) : List Artifact × Option String :=
  if exportCsv then
    match env.csvExc with
    | some exc => (arts, some exc)
    | none =>
      exportJsonStep env recs outDir core exportJson
        (arts ++ [Artifact.csvFile (joinPath outDir (core ++ "_slices.csv")) (csvRows recs)])
  else exportJsonStep env recs outDir core exportJson arts

/-- processing.py lines 190–225: the whole export phase — write every chunk,
then optionally the CSV and JSON metadata files; the first raised exception
aborts the remainder but never removes anything already written. -/
def exportPhase (env : ExportEnv) (chunkCount : Nat) (ranges : List (Nat × Nat))
    (outDir core ext source : String) (exportCsv exportJson : Bool) :
    List Artifact × Option String :=
  let seg := writeSegGo env ranges outDir core ext source 0 chunkCount
  match seg.2.2 with
  | some exc => (seg.1, some exc)
  | none => exportCsvStep env seg.2.1 outDir core exportCsv exportJson seg.1

/-- The segment artifacts for chunk indices `[i, i + n)`. -/
def segArtifacts (outDir core ext : String) (i n : Nat) : List Artifact :=
  (List.range' i n).map (fun j => Artifact.segment (segmentPath outDir core ext j) j)

/-- The slice records for chunk indices `[i, i + n)`. -/
def segRecords (ranges : List (Nat × Nat)) (outDir core ext source : String)
    (i n : Nat) : List SliceRecord :=
  (List.range' i n).map (fun j => buildRecord j ranges (segmentPath outDir core ext j) source)

/-- The write loop with no failing write in `[i, i + fuel)` writes every
segment and builds every record. -/
theorem writeSegGo_all_ok (env : ExportEnv) (ranges : List (Nat × Nat))
    (outDir core ext source : String) :
    ∀ (fuel i : Nat), (∀ k, i ≤ k → k < i + fuel → env.segWriteExc k = none) →
    writeSegGo env ranges outDir core ext source i fuel =
      (segArtifacts outDir core ext i fuel, segRecords ranges outDir core ext source i fuel,
        none) := by
  intro fuel
  induction fuel with
  | zero => intro i _; simp [writeSegGo, segArtifacts, segRecords]
  | succ n ih =>
    intro i hok
    have hi : env.segWriteExc i = none := hok i (le_refl i) (by omega)
    rw [writeSegGo, hi]
    rw [ih (i + 1) (fun k hk1 hk2 => hok k (by omega) (by omega))]
    simp [segArtifacts, segRecords, List.range'_succ]

/-- The write loop aborted by the first failing write at index `j` keeps every
segment written before `j` and reports the exception. -/
theorem writeSegGo_first_fail (env : ExportEnv) (ranges : List (Nat × Nat))
    (outDir core ext source : String) :
    ∀ (fuel i j : Nat) (exc : String), i ≤ j → j < i + fuel →
    (∀ k, i ≤ k → k < j → env.segWriteExc k = none) → env.segWriteExc j = some exc →
    writeSegGo env ranges outDir core ext source i fuel =
      (segArtifacts outDir core ext i (j - i),
        segRecords ranges outDir core ext source i (j - i), some exc) := by
  intro fuel
  induction fuel with
  | zero => intro i j exc h1 h2; omega
  | succ n ih =>
    intro i j exc h1 h2 hok hj
    by_cases hij : i = j
    · subst hij
      rw [writeSegGo, hj]
      simp [segArtifacts, segRecords]
    · have hi : env.segWriteExc i = none := hok i (le_refl i) (by omega)
      rw [writeSegGo, hi]
      rw [ih (i + 1) j exc (by omega) (by omega)
        (fun k hk1 hk2 => hok k (by omega) hk2) hj]
      have hji : j - i = (j - (i + 1)) + 1 := by omega
      rw [hji]
      simp [segArtifacts, segRecords, List.range'_succ]

/-- Outcome of one `process_audio_file` call as observed by the worker:
`(True, None, out_dir)`, `(False, error, None)`, or a raised exception. -/
inductive RunOutcome where
  | ok (outDir : String)
  | fail (err : Option Msg)
  | raised (exc : String)
deriving DecidableEq, Repr

/-- Worker events observable by the main window: the `oneFinished` progress
signal, the `errorOccurred` signal with the file and its error message, and
updates of `window.last_output_dir`. -/
inductive Ev where
  | finished
  | errOccurred (file : String) (m : Msg)
  | setLastDir (d : String)
deriving DecidableEq, Repr

/-- The `if out_dir: self.win.last_output_dir = out_dir` update (an empty
string is falsy). -/
def dirEvs (d : String) : List Ev := if d = "" then [] else [Ev.setLastDir d]

/-- mainwindow line 352: `"fallback_mode": fallback_mode or opts["fallback_mode"]`
— the per-call override (`None` and `""` falsy) else the batch option. -/
def kwargsFallbackMode (override : Option String) (optsFb : String) : String :=
  match override with
  | none => optsFb
  | some s => if s = "" then optsFb else s

/-- mainwindow lines 317–330, the non-`ask` branch of `WorkThread._process_file`:
run `process_audio_file` with the batch fallback mode; a raised exception or a
failure emits `errorOccurred` for the file and returns `False`; success updates
the last output directory and returns `True`. `run` maps a fallback mode to
this file's `process_audio_file` outcome. -/
def processFileAuto (run : String → RunOutcome) (mode file : String) : Bool × List Ev :=
  match run mode with
  | RunOutcome.raised exc => (false, [Ev.errOccurred file (Msg.raw exc)])
  | RunOutcome.ok d => (true, dirEvs d)
  | RunOutcome.fail e => (false, [Ev.errOccurred file (msgOr e (Msg.raw "Unknown error."))])

/-- mainwindow lines 272–315, the `ask` branch of `WorkThread._process_file`:
first run with `fallback_mode="skip"`; on failure ask the bridge for a choice —
`"ffmpeg"` and `"librosa"` rerun `process_audio_file` with that single-decoder
fallback mode and handle the result exactly as the automatic branch does; any
other choice emits the localized `skipped_by_user` error and returns `False`. -/
def processFileAsk (run : String → RunOutcome) (choice file lang : String) :
    Bool × List Ev :=
  match run "skip" with
  | RunOutcome.raised exc => (false, [Ev.errOccurred file (Msg.raw exc)])
  | RunOutcome.ok d => (true, dirEvs d)
  | RunOutcome.fail _ =>
    if choice = "ffmpeg" then
      match run "ffmpeg" with
      | RunOutcome.raised exc => (false, [Ev.errOccurred file (Msg.raw exc)])
      | RunOutcome.ok d => (true, dirEvs d)
      | RunOutcome.fail e =>
        (false, [Ev.errOccurred file (msgOr e (Msg.raw "Unknown error."))])
    else if choice = "librosa" then
      match run "librosa" with
      | RunOutcome.raised exc => (false, [Ev.errOccurred file (Msg.raw exc)])
      | RunOutcome.ok d => (true, dirEvs d)
      | RunOutcome.fail e =>
        (false, [Ev.errOccurred file (msgOr e (Msg.raw "Unknown error."))])
    else (false, [Ev.errOccurred file (Msg.i18n "skipped_by_user" lang)])

/-- Result of a submitted `_process_file` task as seen at `future.result()`:
a normal return (with the events the task emitted while running) or a raised
exception. -/
inductive TaskRes where
  | done (ok : Bool) (evs : List Ev)
  | raised (exc : String)

/-- Result of a submitted `process_audio_file` task in process mode: the
returned `(ok, error, out_dir)` triple or a raised exception. -/
inductive ProcessPoolRes where
  | returned (ok : Bool) (err : Option Msg) (outDir : String)
  | raised (exc : String)

/-- mainwindow lines 226–232, `single` mode: process the files in input order;
the `try/finally` emits `oneFinished` exactly once per file. -/
def runSingle (pf : String → Bool × List Ev) : List String → List Ev
  | [] => []
  | f :: rest => (pf f).2 ++ [Ev.finished] ++ runSingle pf rest

/-- mainwindow lines 239–244: collecting one completed `_process_file` future —
its events happened while it ran; a raised task is turned into an
`errorOccurred` signal by the `except` clause. -/
def handleTaskRes (f : String) : TaskRes → List Ev
  | TaskRes.done _ evs => evs
  | TaskRes.raised exc => [Ev.errOccurred f (Msg.raw exc)]

/-- mainwindow lines 233–247, `thread` mode over the completion order of
`as_completed`: collect each future, and the `finally` emits `oneFinished`
exactly once per completed future. -/
def runThread (tr : String → TaskRes) : List String → List Ev
  | [] => []
  | f :: rest => handleTaskRes f (tr f) ++ [Ev.finished] ++ runThread tr rest

/-- mainwindow lines 257–269: handling of one completed process-pool future —
success updates the last output directory, failure and exceptions emit
`errorOccurred`. -/
def handleProcessPoolRes (f : String) : ProcessPoolRes → List Ev
  | ProcessPoolRes.returned true _ d => dirEvs d
  | ProcessPoolRes.returned false e _ =>
      [Ev.errOccurred f (msgOr e (Msg.raw "Unknown error."))]
  | ProcessPoolRes.raised exc => [Ev.errOccurred f (Msg.raw exc)]

/-- mainwindow lines 248–269, `process` mode over the completion order:
handle each future, then the `finally` emits `oneFinished` once per future. -/
def runProcessMode (pr : String → ProcessPoolRes) : List String → List Ev
  | [] => []
  | f :: rest => handleProcessPoolRes f (pr f) ++ [Ev.finished] ++ runProcessMode pr rest

/-- mainwindow lines 379–381, `MainWindow._oneFinished`: the finished counter
starts at 0 and increases by exactly one per `oneFinished` signal. -/
def finishedCounter : List Ev → Nat
  | [] => 0
  | Ev.finished :: rest => finishedCounter rest + 1
  | _ :: rest => finishedCounter rest

theorem finishedCounter_append (l1 l2 : List Ev) :
    finishedCounter (l1 ++ l2) = finishedCounter l1 + finishedCounter l2 := by
  induction l1 with
  | nil => simp [finishedCounter]
  | cons e rest ih =>
    cases e with
    | finished => simp [finishedCounter, ih]; omega
    | errOccurred f m => simp [finishedCounter, ih]
    | setLastDir d => simp [finishedCounter, ih]

/-- An event list without the `oneFinished` signal contributes nothing to the
finished counter. -/
theorem finishedCounter_zero (evs : List Ev) (h : Ev.finished ∉ evs) :
    finishedCounter evs = 0 := by
  induction evs with
  | nil => rfl
  | cons e rest ih =>
    have he : e ≠ Ev.finished := fun hc => h (hc ▸ List.mem_cons_self e rest)
    have hr : Ev.finished ∉ rest := fun hc => h (List.mem_cons_of_mem e hc)
    cases e with
    | finished => exact absurd rfl he
    | errOccurred f m => simp [finishedCounter, ih hr]
    | setLastDir d => simp [finishedCounter, ih hr]

/-- A directory update never carries the progress signal. -/
theorem finished_not_mem_dirEvs (d : String) : Ev.finished ∉ dirEvs d := by
  unfold dirEvs
  split <;> simp

/-- The per-file worker logic never emits `oneFinished` itself (only the
schedulers' `finally` blocks do): the events of `_process_file` in either
branch are error reports and directory updates. -/
theorem processFile_no_finished (run : String → RunOutcome)
    (mode file choice lang : String) :
    Ev.finished ∉ (processFileAuto run mode file).2 ∧
    Ev.finished ∉ (processFileAsk run choice file lang).2 := by
  constructor
  · unfold processFileAuto
    cases run mode <;> simp [finished_not_mem_dirEvs]
  · unfold processFileAsk
    cases run "skip" with
    | ok d => simp [finished_not_mem_dirEvs]
    | raised exc => simp
    | fail e =>
      by_cases h1 : choice = "ffmpeg"
      · cases run "ffmpeg" <;> simp [h1, finished_not_mem_dirEvs]
      · by_cases h2 : choice = "librosa"
        · cases run "librosa" <;> simp [h1, h2, finished_not_mem_dirEvs]
        · simp [h1, h2]

theorem finishedCounter_runSingle (pf : String → Bool × List Ev)
    (hpf : ∀ f, Ev.finished ∉ (pf f).2) :
    ∀ files : List String, finishedCounter (runSingle pf files) = files.length := by
  intro files
  induction files with
  | nil => rfl
  | cons f rest ih =>
    have h1 : finishedCounter [Ev.finished] = 1 := rfl
    simp only [runSingle, finishedCounter_append, ih, List.length_cons,
      finishedCounter_zero (pf f).2 (hpf f), h1]
    omega

theorem finishedCounter_runThread (tr : String → TaskRes)
    (htr : ∀ f ok evs, tr f = TaskRes.done ok evs → Ev.finished ∉ evs) :
    ∀ files : List String, finishedCounter (runThread tr files) = files.length := by
  intro files
  induction files with
  | nil => rfl
  | cons f rest ih =>
    have hnf : Ev.finished ∉ handleTaskRes f (tr f) := by
      cases htrf : tr f with
      | done ok evs => simpa [handleTaskRes] using htr f ok evs htrf
      | raised exc => simp [handleTaskRes]
    have h1 : finishedCounter [Ev.finished] = 1 := rfl
    simp only [runThread, finishedCounter_append, ih, List.length_cons,
      finishedCounter_zero _ hnf, h1]
    omega

theorem finishedCounter_runProcessMode (pr : String → ProcessPoolRes) :
    ∀ files : List String, finishedCounter (runProcessMode pr files) = files.length := by
  intro files
  induction files with
  | nil => rfl
  | cons f rest ih =>
    have hnf : Ev.finished ∉ handleProcessPoolRes f (pr f) := by
      unfold handleProcessPoolRes
      cases hp : pr f with
      | returned ok e d => cases ok <;> simp [finished_not_mem_dirEvs]
      | raised exc => simp
    have h1 : finishedCounter [Ev.finished] = 1 := rfl
    simp only [runProcessMode, finishedCounter_append, ih, List.length_cons,
      finishedCounter_zero _ hnf, h1]
    omega

/-- C3: in each of the three concurrency modes every input file yields exactly
one `oneFinished` signal — success, failure and raised exceptions alike — so
the finished counter reaches exactly the number of files of the batch, and a
per-file error never stops the remaining files (the counts hold for every
per-file outcome assignment); the per-file worker logic itself never emits the
progress signal, so the counter counts files, not internal events. -/
theorem c3_one_finished_per_file (files order : List String)
    (pf : String → Bool × List Ev) (tr : String → TaskRes)
    (pr : String → ProcessPoolRes)
    (hpf : ∀ f, Ev.finished ∉ (pf f).2)
    (htr : ∀ f ok evs, tr f = TaskRes.done ok evs → Ev.finished ∉ evs)
    (hperm : order.Perm files) :
    finishedCounter (runSingle pf files) = files.length ∧
    finishedCounter (runThread tr order) = files.length ∧
    finishedCounter (runProcessMode pr order) = files.length ∧
    (∀ (run : String → RunOutcome) (mode file choice lang : String),
      Ev.finished ∉ (processFileAuto run mode file).2 ∧
      Ev.finished ∉ (processFileAsk run choice file lang).2) := by
  refine ⟨finishedCounter_runSingle pf hpf files, ?_, ?_, ?_⟩
  · rw [finishedCounter_runThread tr htr order, hperm.length_eq]
  · rw [finishedCounter_runProcessMode pr order, hperm.length_eq]
  · intro run mode file choice lang
    exact processFile_no_finished run mode file choice lang

/-- Witness for C3: two files, each failing (one raising in thread mode), in a
shuffled completion order — every mode still reports exactly two finished
signals. -/
theorem c3_one_finished_per_file_witness :
    finishedCounter (runSingle
      (fun f => (false, [Ev.errOccurred f (Msg.raw "bad")])) ["a", "b"]) = 2 ∧
    finishedCounter (runThread (fun f => TaskRes.raised ("exc " ++ f)) ["b", "a"]) = 2 ∧
    finishedCounter (runProcessMode
      (fun _ => ProcessPoolRes.returned false none "") ["b", "a"]) = 2 := by
  have h := c3_one_finished_per_file ["a", "b"] ["b", "a"]
    (fun f => (false, [Ev.errOccurred f (Msg.raw "bad")]))
    (fun f => TaskRes.raised ("exc " ++ f))
    (fun _ => ProcessPoolRes.returned false none "")
    (fun f => by simp)
    (fun f ok evs hc => by simp at hc)
    (by decide)
  exact ⟨h.1, h.2.1, h.2.2.1⟩

/-- C5: under `fallback_mode = "ask"`, when the first run (with `skip`) fails,
the choice `"cancel"` — and any choice other than `"ffmpeg"`/`"librosa"`, which
is what `_request_fallback_choice` returns for a dismissed dialog — makes the
file fail with the localized `skipped_by_user` classification, which is a
different message from every raw decode-error string; the choices `"ffmpeg"`
and `"librosa"` reprocess the file exactly as the corresponding single-decoder
automatic branch does. -/
theorem c5_ask_cancel_skips (run : String → RunOutcome) (file lang : String)
    (e0 : Option Msg) (hfail : run "skip" = RunOutcome.fail e0) :
    (∀ choice : String, choice ≠ "ffmpeg" → choice ≠ "librosa" →
      processFileAsk run choice file lang =
        (false, [Ev.errOccurred file (Msg.i18n "skipped_by_user" lang)])) ∧
    (∀ s : String, Msg.i18n "skipped_by_user" lang ≠ Msg.raw s) ∧
    (processFileAsk run "ffmpeg" file lang = processFileAuto run "ffmpeg" file) ∧
    (processFileAsk run "librosa" file lang = processFileAuto run "librosa" file) := by
  refine ⟨?_, ?_, ?_, ?_⟩
  · intro choice h1 h2
    simp [processFileAsk, hfail, h1, h2]
  · intro s hc
    exact Msg.noConfusion hc
  · unfold processFileAsk processFileAuto
    rw [hfail]
    simp
  · unfold processFileAsk processFileAuto
    rw [hfail]
    simp

/-- Witness for C5 at a concrete per-file environment whose primary decode
fails: the cancel choice yields the skipped-by-user failure, and the ffmpeg
choice behaves as the automatic ffmpeg mode. -/
theorem c5_ask_cancel_skips_witness :
    processFileAsk
        (fun m => if m = "ffmpeg" then RunOutcome.ok "/out"
          else RunOutcome.fail (some (Msg.raw "decode error")))
        "cancel" "a.wav" "en" =
      (false, [Ev.errOccurred "a.wav" (Msg.i18n "skipped_by_user" "en")]) ∧
    processFileAsk
        (fun m => if m = "ffmpeg" then RunOutcome.ok "/out"
          else RunOutcome.fail (some (Msg.raw "decode error")))
        "ffmpeg" "a.wav" "en" =
      processFileAuto
        (fun m => if m = "ffmpeg" then RunOutcome.ok "/out"
          else RunOutcome.fail (some (Msg.raw "decode error")))
        "ffmpeg" "a.wav" := by
  have h := c5_ask_cancel_skips
    (fun m => if m = "ffmpeg" then RunOutcome.ok "/out"
      else RunOutcome.fail (some (Msg.raw "decode error")))
    "a.wav" "en" (some (Msg.raw "decode error")) (by decide)
  exact ⟨h.1 "cancel" (by decide) (by decide), h.2.2.1⟩

/-- mainwindow lines 199–210, the eager start-time validation in
`MainWindow._on_start`: the options are collected once; when
`parallel_mode = "process"` meets `fallback_mode = "ask"` a warning dialog is
shown — Cancel aborts the start (no `WorkThread` is ever constructed), Ok
rewrites `fallback_mode` to `"ffmpeg_then_librosa"` — and only afterwards is
the single `WorkThread` built from the final options. Returns the fallback
mode the batch is dispatched with, or `none` when the start is cancelled. -/
def validateStartOptions (parallelMode fallbackMode : String) (userAccepts : Bool) :
    Option String :=
  if parallelMode = "process" ∧ fallbackMode = "ask" then
    if userAccepts then some "ffmpeg_then_librosa" else none
  else some fallbackMode

/-- C2: for every start with `parallel_mode = "process"` and
`fallback_mode = "ask"`, the scheduler either cancels the batch or rewrites the
fallback mode to the fully automatic `"ffmpeg_then_librosa"` before any worker
is dispatched: whatever the inputs, validation returns either `none` (no worker
starts) or a fallback mode that never combines `process` with `ask`; and the
per-file kwargs built without an override then carry exactly that validated
mode, so no worker ever runs with the combination. -/
theorem c2_no_process_ask_dispatch (parallelMode fallbackMode : String)
    (userAccepts : Bool) :
    validateStartOptions parallelMode fallbackMode userAccepts = none ∨
    ∃ fb : String, validateStartOptions parallelMode fallbackMode userAccepts = some fb ∧
      ¬(parallelMode = "process" ∧ fb = "ask") ∧
      kwargsFallbackMode none fb = fb := by
  by_cases hpa : parallelMode = "process" ∧ fallbackMode = "ask"
  · cases userAccepts with
    | false =>
      left
      simp [validateStartOptions, hpa]
    | true =>
      right
      refine ⟨"ffmpeg_then_librosa", ?_, ?_, rfl⟩
      · simp [validateStartOptions, hpa]
      · rintro ⟨-, hc⟩
        exact absurd hc (by decide)
  · right
    exact ⟨fallbackMode, by simp [validateStartOptions, hpa], hpa, rfl⟩

/-- C6: when writing a segment or a CSV/JSON metadata file fails partway
through export, the whole export of that file fails with that exception —
surfaced per file as an `errorOccurred` report by the worker — while every
artifact already written before the failure is kept exactly (segments written
before a failing segment write; all segments when the CSV write fails; all
segments plus the CSV file when the JSON write fails). Nothing is ever rolled
back. -/
theorem c6_export_failure_keeps_written (env : ExportEnv) (n : Nat)
    (ranges : List (Nat × Nat)) (outDir core ext source : String)
    (exportCsv exportJson : Bool) :
    (∀ (j : Nat) (exc : String), j < n → (∀ k, k < j → env.segWriteExc k = none) →
      env.segWriteExc j = some exc →
      exportPhase env n ranges outDir core ext source exportCsv exportJson =
        (segArtifacts outDir core ext 0 j, some exc)) ∧
    (∀ exc : String, (∀ k, k < n → env.segWriteExc k = none) →
      env.csvExc = some exc →
      exportPhase env n ranges outDir core ext source true exportJson =
        (segArtifacts outDir core ext 0 n, some exc)) ∧
    (∀ exc : String, (∀ k, k < n → env.segWriteExc k = none) →
      env.csvExc = none → env.jsonExc = some exc →
      exportPhase env n ranges outDir core ext source true true =
        (segArtifacts outDir core ext 0 n ++
          [Artifact.csvFile (joinPath outDir (core ++ "_slices.csv"))
            (csvRows (segRecords ranges outDir core ext source 0 n))], some exc)) ∧
    (∀ (run : String → RunOutcome) (mode file exc : String),
      run mode = RunOutcome.raised exc →
      processFileAuto run mode file = (false, [Ev.errOccurred file (Msg.raw exc)])) := by
  refine ⟨?_, ?_, ?_, ?_⟩
  · intro j exc hj hok hjexc
    have hws := writeSegGo_first_fail env ranges outDir core ext source n 0 j exc
      (Nat.zero_le j) (by omega) (fun k _ hk2 => hok k hk2) hjexc
    simp [exportPhase, hws]
  · intro exc hok hcsv
    have hws := writeSegGo_all_ok env ranges outDir core ext source n 0
      (fun k _ hk2 => hok k (by omega))
    simp [exportPhase, hws, exportCsvStep, hcsv]
  · intro exc hok hcsv hjson
    have hws := writeSegGo_all_ok env ranges outDir core ext source n 0
      (fun k _ hk2 => hok k (by omega))
    simp [exportPhase, hws, exportCsvStep, exportJsonStep, hcsv, hjson]
  · intro run mode file exc h
    simp [processFileAuto, h]

/-- Witness for C6: three chunks, the write of chunk 1 raises — the export
fails with that exception and exactly the segment written before it (chunk 0)
is kept. -/
theorem c6_export_failure_keeps_written_witness :
    exportPhase
        (ExportEnv.mk (fun k => if k = 1 then some "disk full" else none) none none)
        3 [(0, 5)] "/o" "core" "wav" "src.wav" true true =
      ([Artifact.segment (segmentPath "/o" "core" "wav" 0) 0], some "disk full") := by
  have h := (c6_export_failure_keeps_written
      (ExportEnv.mk (fun k => if k = 1 then some "disk full" else none) none none)
      3 [(0, 5)] "/o" "core" "wav" "src.wav" true true).1 1 "disk full"
    (by omega) (fun k hk => by simp [show k ≠ 1 by omega]) (by simp)
  simpa [segArtifacts, List.range'] using h

/-- C8: with CSV and JSON export enabled and no write failing, the export
writes `{core}_slices.csv` whose rows are the exact header
`index,start_ms,end_ms,length_ms,output_path,source_file` followed by one row
per slice record with `""` replacing every `None` field, and
`{core}_slices.json` as the array of the same records with `null` replacing
`None` fields. -/
theorem c8_metadata_files (env : ExportEnv) (n : Nat) (ranges : List (Nat × Nat))
    (outDir core ext source : String)
    (hseg : ∀ k, k < n → env.segWriteExc k = none)
    (hcsv : env.csvExc = none) (hjson : env.jsonExc = none) :
    exportPhase env n ranges outDir core ext source true true =
      (segArtifacts outDir core ext 0 n ++
        [Artifact.csvFile (joinPath outDir (core ++ "_slices.csv"))
            (csvFieldnames ::
              (segRecords ranges outDir core ext source 0 n).map recordCells),
          Artifact.jsonFile (joinPath outDir (core ++ "_slices.json"))
            ((segRecords ranges outDir core ext source 0 n).map recordJson)], none) ∧
    String.intercalate "," csvFieldnames =
      "index,start_ms,end_ms,length_ms,output_path,source_file" ∧
    cellOfOpt none = "" ∧ optIntJv none = Jv.null ∧
    (∀ r : SliceRecord, r.start_ms = none → r.end_ms = none → r.length_ms = none →
      recordCells r = [toString r.index, "", "", "", r.output_path, r.source_file] ∧
      recordJson r = [("index", Jv.num r.index), ("start_ms", Jv.null),
        ("end_ms", Jv.null), ("length_ms", Jv.null),
        ("output_path", Jv.str r.output_path), ("source_file", Jv.str r.source_file)]) := by
  refine ⟨?_, by decide, rfl, rfl, ?_⟩
  · have hws := writeSegGo_all_ok env ranges outDir core ext source n 0
      (fun k _ hk2 => hseg k (by omega))
    simp [exportPhase, hws, exportCsvStep, exportJsonStep, hcsv, hjson, csvRows]
  · intro r h1 h2 h3
    exact ⟨by simp [recordCells, h1, h2, h3, cellOfOpt],
      by simp [recordJson, h1, h2, h3, optIntJv]⟩

/-- Witness for C8: one chunk with one matching range — the CSV file holds the
header and one fully populated row, the JSON file the matching object. -/
theorem c8_metadata_files_witness :
    exportPhase (ExportEnv.mk (fun _ => none) none none)
        1 [(0, 5)] "/o" "core" "wav" "src.wav" true true =
      ([Artifact.segment (segmentPath "/o" "core" "wav" 0) 0,
        Artifact.csvFile "/o/core_slices.csv"
          [["index", "start_ms", "end_ms", "length_ms", "output_path", "source_file"],
            ["0", "0", "5", "5", segmentPath "/o" "core" "wav" 0, "src.wav"]],
        Artifact.jsonFile "/o/core_slices.json"
          [[("index", Jv.num 0), ("start_ms", Jv.num 0), ("end_ms", Jv.num 5),
            ("length_ms", Jv.num 5), ("output_path", Jv.str (segmentPath "/o" "core" "wav" 0)),
            ("source_file", Jv.str "src.wav")]]], none) := by
  have h := (c8_metadata_files (ExportEnv.mk (fun _ => none) none none)
      1 [(0, 5)] "/o" "core" "wav" "src.wav" (fun k _ => rfl) rfl rfl).1
  simpa [segArtifacts, segRecords, List.range', csvFieldnames, recordCells, recordJson,
    buildRecord, cellOfOpt, optIntJv, joinPath, segmentPath] using h

/-- C10: slice-record construction is total in the chunk count — a chunk with
a matching range gets its start/end from that range and
`length_ms = end_ms - start_ms`; a chunk index at or past the range count
still yields a record, with all three timing fields `None`; and the write loop
always produces exactly one record per chunk, even when the chunk count
exceeds the range count. -/
theorem c10_record_construction_total (i n : Nat) (ranges : List (Nat × Nat))
    (path source : String) (env : ExportEnv) (outDir core ext src : String)
    (hok : ∀ k, k < n → env.segWriteExc k = none) :
    (∀ s e : Nat, ranges.get? i = some (s, e) →
      buildRecord i ranges path source =
        { index := i, start_ms := some (s : Int), end_ms := some (e : Int),
          length_ms := some ((e : Int) - (s : Int)), output_path := path,
          source_file := source }) ∧
    (ranges.length ≤ i →
      buildRecord i ranges path source =
        { index := i, start_ms := none, end_ms := none, length_ms := none,
          output_path := path, source_file := source }) ∧
    (writeSegGo env ranges outDir core ext src 0 n).2.1.length = n := by
  refine ⟨?_, ?_, ?_⟩
  · intro s e hget
    have hget' : ranges[i]? = some (s, e) := by
      simpa [List.get?_eq_getElem?] using hget
    simp [buildRecord, List.get?_eq_getElem?, hget']
  · intro hlen
    simp [buildRecord, List.get?_eq_none.mpr hlen]
    exact hlen
  · have hws := writeSegGo_all_ok env ranges outDir core ext src n 0
      (fun k _ hk2 => hok k (by omega))
    simp [hws, segRecords]

/-- Witness for C10: two chunks over a single range — chunk 1 has no matching
range yet still yields a record with `None` timing fields, and the loop builds
two records. -/
theorem c10_record_construction_total_witness :
    buildRecord 1 [(0, 5)] "/o/core_1.wav" "src.wav" =
      { index := 1, start_ms := none, end_ms := none, length_ms := none,
        output_path := "/o/core_1.wav", source_file := "src.wav" } ∧
    (writeSegGo (ExportEnv.mk (fun _ => none) none none) [(0, 5)]
        "/o" "core" "wav" "src.wav" 0 2).2.1.length = 2 := by
  have h := c10_record_construction_total 1 2 [(0, 5)] "/o/core_1.wav" "src.wav"
    (ExportEnv.mk (fun _ => none) none none) "/o" "core" "wav" "src.wav"
    (fun k _ => rfl)
  exact ⟨h.2.1 (by simp), h.2.2⟩

end AudioSlicer
